import Mathlib

/-!
Shallow embedding of the classification-and-heuristic-scoring pipeline of
`analyz.py` (record loading, source classification, Windows rule scoring,
DNS heuristic scoring, aggregation), together with theorems settling the
specification claims about it.

Records are association lists from field names to scalar values; a data
frame carries the column list separately, since pandas keeps the column
set of a frame even when rows are filtered away.  String operations are
implemented structurally over character lists so that every definition
evaluates inside the kernel.
-/

namespace Analyz

/-- A scalar value held in one field of a record: a string, an integer,
a parsed timestamp, or the missing value NaN. -/
inductive Val where
  | str (s : String)
  | intv (n : Int)
  | time (t : Int)
  | na
deriving DecidableEq

/-- One flat log record: an ordered association list from field names to values. -/
abbrev Record := List (String × Val)

/-- A pandas data frame: a column list plus an ordered sequence of records. -/
structure DFrame where
  cols : List String
  rows : List Record
deriving DecidableEq

/-- One row of a ranking table, with columns named as in the source:
`type`, `key`, `count`. -/
structure Row where
  rtype : String
  key : String
  count : Nat
deriving DecidableEq

/-- Coercion of a scalar to text, as `astype(str)` produces it:
NaN becomes the string nan. -/
def asStr : Val → String
  | .str s => s
  | .intv n => toString n
  | .time t => toString t
  | .na => "nan"

/-- Does the pattern match at the head of the text? -/
def matchAt : List Char → List Char → Bool
  | [], _ => true
  | _ :: _, [] => false
  | a :: n, b :: h => a == b && matchAt n h

/-- Does the pattern occur anywhere in the text? -/
def occursIn : List Char → List Char → Bool
  | n, [] => n.isEmpty
  | n, b :: h => matchAt n (b :: h) || occursIn n h

/-- Case-sensitive substring test, as `.str.contains(pat)` on a plain pattern. -/
def strContains (hay nee : String) : Bool := occursIn nee.toList hay.toList

/-- ASCII lowercasing of a string, character by character. -/
def lowerStr (s : String) : String := String.mk (s.toList.map Char.toLower)

/-- Value of a field in a record; a field that is absent reads as NaN,
as in a sparse data frame. -/
def getVal (c : String) : Record → Val
  | [] => .na
  | (k, v) :: r => if k = c then v else getVal c r

/-- Does the record carry the field at all? -/
def hasKey (c : String) (r : Record) : Bool := r.any (fun p => p.1 = c)

/-- Assign a field of a record: replace the value in place when the field
exists, append it otherwise, as a pandas column assignment does. -/
def setVal (c : String) (v : Val) (r : Record) : Record :=
  if hasKey c r then r.map (fun p => if p.1 = c then (c, v) else p) else r ++ [(c, v)]

/-- Does the frame have the column? -/
def hasCol (df : DFrame) (c : String) : Bool := df.cols.contains c

/-- First candidate column present in the frame, the probing pattern used
for identifier and query-name resolution. -/
def findCol (df : DFrame) (cands : List String) : Option String :=
  cands.find? (fun c => hasCol df c)

/-- Assign a whole column of a frame from a per-record function. -/
def setColF (df : DFrame) (c : String) (f : Record → Val) : DFrame :=
  ⟨if df.cols.contains c then df.cols else df.cols ++ [c],
   df.rows.map (fun r => setVal c (f r) r)⟩

/-- Keep the rows whose mask entry is true. -/
def maskFilter {α : Type} : List α → List Bool → List α
  | [], _ => []
  | _ :: _, [] => []
  | a :: l, b :: m => if b then a :: maskFilter l m else maskFilter l m

/-- What the bracket indexing `df[x]` receives in `split_logs`: either a
boolean mask aligned with the rows, or a stray scalar boolean. -/
inductive Sel where
  | mask (m : List Bool)
  | scalar (b : Bool)

/-- Bracket indexing `df[x]`: a boolean mask filters the rows; a scalar
boolean is looked up as a column label and raises a KeyError. -/
def dfSelect (df : DFrame) : Sel → Except String DFrame
  | .mask m => .ok ⟨df.cols, maskFilter df.rows m⟩
  | .scalar b => .error ("KeyError: " ++ (if b then "true" else "false"))

/-- The `is_win` detector of `split_logs`: substring test on `source`,
else on `sourcetype`, else the scalar `False` it was initialized with. -/
def winSel (df : DFrame) : Sel :=
  if hasCol df "source" then
    .mask (df.rows.map (fun r => strContains (asStr (getVal "source" r)) "WinEventLog"))
  else if hasCol df "sourcetype" then
    .mask (df.rows.map (fun r => strContains (asStr (getVal "sourcetype" r)) "WinEventLog"))
  else .scalar false

/-- DNS-indicative field names probed by the last-resort DNS detection. -/
def possible_dns_cols : List String := ["query", "query_name", "domain", "dest_dns", "dns_query"]

/-- The `is_dns` detector of `split_logs`: case-insensitive substring test
on `sourcetype`, else on `source`, else one scalar boolean for the whole
set, true when the column names meet `possible_dns_cols`. -/
def dnsSel (df : DFrame) : Sel :=
  if hasCol df "sourcetype" then
    .mask (df.rows.map (fun r => strContains (lowerStr (asStr (getVal "sourcetype" r))) "dns"))
  else if hasCol df "source" then
    .mask (df.rows.map (fun r => strContains (lowerStr (asStr (getVal "source" r))) "dns"))
  else .scalar (df.cols.any (fun c => possible_dns_cols.contains c))

/-- The Source Classifier `split_logs`: select the Windows subset with the
`is_win` detector, then the DNS subset with the `is_dns` detector; each
selection can raise when its detector degenerated to a scalar. -/
def split_logs (df : DFrame) : Except String (DFrame × DFrame) :=
  match dfSelect df (winSel df) with
  | .error e => .error e
  | .ok win_df =>
    match dfSelect df (dnsSel df) with
    | .error e => .error e
    | .ok dns_df => .ok (win_df, dns_df)

/-- What `pd.to_datetime(value, errors="coerce")` does to one scalar, over
an arbitrary text-to-timestamp parser: strings parse or coerce to NaT,
integers are epoch offsets, timestamps and NaT pass through. -/
def toDatetime (p : String → Option Int) : Val → Val
  | .str s => match p s with | some t => .time t | none => .na
  | .intv n => .time n
  | .time t => .time t
  | .na => .na

/-- The Field Normalizer `normalize_time`: when a `_time` column exists,
coerce it to the temporal type; otherwise return the frame unchanged. -/
def normalize_time (p : String → Option Int) (df : DFrame) : DFrame :=
  if hasCol df "_time" then setColF df "_time" (fun r => toDatetime p (getVal "_time" r)) else df

/-- Descending-by-count comparison between counted values, the order
`value_counts` sorts by. -/
def cntGe (a b : String × Nat) : Prop := b.2 ≤ a.2

instance : DecidableRel cntGe := fun a b => Nat.decLe b.2 a.2

instance : IsTotal (String × Nat) cntGe := ⟨fun a b => Nat.le_total b.2 a.2⟩

instance : IsTrans (String × Nat) cntGe := ⟨fun _ _ _ h1 h2 => Nat.le_trans h2 h1⟩

/-- `Series.value_counts()`: occurrence counts of the distinct values,
sorted descending by count. -/
def value_counts (l : List String) : List (String × Nat) :=
  List.insertionSort cntGe (l.dedup.map (fun s => (s, l.count s)))

/-- The static catalog of suspicious Windows event identifiers and their
human-readable labels, exactly the `suspicious_ids` table of the source. -/
def suspicious_ids : List (String × String) :=
  [("4625", "Failed logon (4625)"),
   ("4624", "Successful logon (4624) - check anomalies"),
   ("4648", "Logon with explicit creds (4648)"),
   ("4672", "Special privileges assigned (4672)"),
   ("4720", "User account created (4720)"),
   ("4722", "User enabled (4722)"),
   ("4723", "Password change attempt (4723)"),
   ("4724", "Password reset attempt (4724)"),
   ("4728", "Added to privileged group (4728)"),
   ("4732", "Added to local group (4732)"),
   ("4756", "Added to universal group (4756)"),
   ("4688", "Process created (4688)"),
   ("4697", "Service installed (4697)"),
   ("7045", "Service created (7045)"),
   ("4698", "Scheduled task created (4698)"),
   ("4699", "Scheduled task deleted (4699)"),
   ("1102", "Audit log cleared (1102)"),
   ("4719", "Audit policy changed (4719)"),
   ("4703", "User right adjusted (4703)")]

/-- Catalog lookup, `suspicious_ids.get(x)`. -/
def lookupId (s : String) : Option String :=
  (suspicious_ids.find? (fun p => p.1 = s)).map (fun p => p.2)

/-- Identifier columns probed by the Windows Rule Scorer, in priority order. -/
def event_cols : List String := ["EventCode", "signature_id", "EventID", "event_id"]

/-- The Windows Rule Scorer `suspicious_wineventlog`.  Returns the state
of its input frame after the call together with the ranking rows, because
the source assigns `win_df[event_col] = win_df[event_col].astype(str)` on
the frame it was given.  With no identifier column or no rows it returns
an empty ranking; with catalog matches it counts them and maps labels;
otherwise it falls back to the ten most frequent raw identifier values. -/
def suspicious_wineventlog (win_df : DFrame) : DFrame × List Row :=
  match findCol win_df event_cols with
  | none => (win_df, [])
  | some event_col =>
    if win_df.rows.isEmpty then (win_df, []) else
    let win2 := setColF win_df event_col (fun r => .str (asStr (getVal event_col r)))
    let vals := win2.rows.map (fun r => asStr (getVal event_col r))
    let flagged := vals.filter (fun v => (lookupId v).isSome)
    if flagged.isEmpty then
      let top := (value_counts vals).take 10
      (win2, top.map (fun p => ⟨"WinEventLog (top by frequency)", p.1, p.2⟩))
    else
      let cnt := value_counts flagged
      (win2, cnt.map (fun p =>
        ⟨"WinEventLog", (match lookupId p.1 with | some lbl => lbl | none => p.1), p.2⟩))

/-- Strip a character from both ends of a character list, as the Python
`strip` method does. -/
def stripEnds (c : Char) (l : List Char) : List Char :=
  ((l.dropWhile (fun x => x = c)).reverse.dropWhile (fun x => x = c)).reverse

/-- Split a character list on the dot separator; mirrors `q.split(".")`,
so an empty list yields one empty piece. -/
def splitOnDot : List Char → List (List Char)
  | [] => [[]]
  | c :: rest =>
    match splitOnDot rest with
    | [] => [[c]]
    | p :: ps => if c = '.' then [] :: p :: ps else (c :: p) :: ps

/-- The registrable-domain approximation `extract_domain`: empty for
values that are not strings or are empty; otherwise strip dots from both
ends, lowercase, and keep the last two dot-separated labels. -/
def extract_domain (q : Val) : String :=
  match q with
  | .str s =>
    if s.isEmpty then "" else
    let q2 := (stripEnds '.' s.toList).map Char.toLower
    let parts := splitOnDot q2
    if parts.length ≤ 2 then String.mk q2
    else String.mk (List.intercalate ['.'] (parts.drop (parts.length - 2)))
  | _ => ""

/-- Strip whitespace from both ends of a character list, the Python
`strip()` used on extracted query names. -/
def trimWs (l : List Char) : List Char :=
  ((l.dropWhile Char.isWhitespace).reverse.dropWhile Char.isWhitespace).reverse

/-- Query-name normalization of the DNS scorer: take the domain-shaped
substring the pattern matcher found, or the raw text when it found none,
then trim whitespace and lowercase.  The pattern matcher stands for the
`str.extract` regular-expression call and is passed in as a function. -/
def qnameOf (rex : String → Option String) (t : String) : String :=
  let raw := match rex t with | some m => m | none => t
  String.mk ((trimWs raw.toList).map Char.toLower)

/-- Number of dot characters in a query name, the `dots` feature. -/
def dotCount (s : String) : Nat := s.toList.countP (fun c => c = '.')

/-- Number of decimal digits in a query name, the `digits` feature. -/
def digitCount (s : String) : Nat := s.toList.countP (fun c => c.isDigit)

/-- The weird-subdomain heuristic of the DNS scorer: long name, or many
dots, or many digits. -/
def weird (q : String) : Bool :=
  (q.length ≥ 40) || (dotCount q ≥ 5) || (digitCount q ≥ 10)

/-- The `suspicious_q` selection: the query names flagged by the
weird-subdomain heuristic, in record order. -/
def suspicious_q (qnames : List String) : List String := qnames.filter weird

/-- Query-name columns probed first by the DNS scorer, in order. -/
def query_cols_primary : List String :=
  ["query", "query_name", "dns_query", "dest_dns", "Domain", "domain", "QueryName"]

/-- Unstructured-text columns probed when no query-name column exists. -/
def query_cols_fallback : List String := ["Message", "_raw", "body"]

/-- The DNS Heuristic Scorer `suspicious_dns`: empty ranking for an empty
subset or when no query column is found; otherwise derive query names and
domains, rank rare domains and weird query names, and concatenate the two
rankings. -/
def suspicious_dns (rex : String → Option String) (dns_df : DFrame) : List Row :=
  if dns_df.rows.isEmpty then [] else
  let query_col :=
    match findCol dns_df query_cols_primary with
    | some c => some c
    | none => findCol dns_df query_cols_fallback
  match query_col with
  | none => []
  | some qc =>
    let qnames := dns_df.rows.map (fun r => qnameOf rex (asStr (getVal qc r)))
    let domains := qnames.map (fun q => extract_domain (.str q))
    let weirdQ := suspicious_q qnames
    let domain_counts := value_counts domains
    let rare_domains := (domain_counts.filter (fun p => p.2 ≤ 2)).map (fun p => p.1)
    let rare_hits := domains.filter (fun d => rare_domains.contains d)
    let rare_top := (value_counts rare_hits).take 10
    let weird_top := (value_counts weirdQ).take 10
    rare_top.map (fun p => ⟨"DNS (rare domains)", p.1, p.2⟩)
      ++ weird_top.map (fun p => ⟨"DNS (weird subdomains)", p.1, p.2⟩)

/-- The grouping key of the Aggregator: the pair of the `type` and `key`
columns of a ranking row. -/
def pairOf (r : Row) : String × String := (r.rtype, r.key)

/-- Descending-by-count comparison between ranking rows, the order the
combined ranking is sorted by. -/
def rowGe (a b : Row) : Prop := b.count ≤ a.count

instance : DecidableRel rowGe := fun a b => Nat.decLe b.count a.count

instance : IsTotal Row rowGe := ⟨fun a b => Nat.le_total b.count a.count⟩

instance : IsTrans Row rowGe := ⟨fun _ _ _ h1 h2 => Nat.le_trans h2 h1⟩

/-- Lexicographic comparison of character lists by code point, the way
Python compares strings. -/
def listLt : List Char → List Char → Bool
  | [], [] => false
  | [], _ :: _ => true
  | _ :: _, [] => false
  | a :: l, b :: m =>
    if a.toNat < b.toNat then true else if b.toNat < a.toNat then false else listLt l m

/-- Strict string comparison by code point. -/
def strLt (a b : String) : Bool := listLt a.toList b.toList

/-- Non-strict string comparison by code point. -/
def strLe (a b : String) : Bool := !(strLt b a)

/-- Ascending lexicographic comparison on grouping keys, the order pandas
`groupby` lists groups in. -/
def pairLe (a b : String × String) : Prop :=
  (strLt a.1 b.1 || (a.1 == b.1 && strLe a.2 b.2)) = true

instance : DecidableRel pairLe := fun a b => by unfold pairLe; infer_instance

/-- Total count carried by rows with a given grouping key. -/
def sumFor (p : String × String) (l : List Row) : Nat :=
  ((l.filter (fun r => pairOf r = p)).map (fun r => r.count)).sum

/-- The Aggregator of `main`: group the concatenated scorer rows by the
pair of `type` and `key`, sum the counts of each group, and sort the
groups descending by summed count. -/
def aggregate (rows : List Row) : List Row :=
  List.insertionSort rowGe
    ((List.insertionSort pairLe (rows.map pairOf).dedup).map
      (fun p => ⟨p.1, p.2, sumFor p rows⟩))

/-- Identifier values of a frame under a given identifier column, coerced
to text: the series the Windows scorer counts. -/
def winVals (df : DFrame) (ec : String) : List String :=
  df.rows.map (fun r => asStr (getVal ec r))

/-- The empty record set, as loaded from an empty export. -/
def dfEmpty : DFrame := ⟨[], []⟩

/-- An empty Windows subset that still carries its typing columns. -/
def dfWinNoRows : DFrame := ⟨["source", "EventCode"], []⟩

/-- An empty DNS subset that still carries its typing columns. -/
def dfDnsNoRows : DFrame := ⟨["sourcetype", "query"], []⟩

/-- An empty frame that carries a timestamp column. -/
def dfTimeNoRows : DFrame := ⟨["_time"], []⟩

/-- A record set with data but with neither a source nor a sourcetype
column, the shape on which the classifier falls over. -/
def df2bad : DFrame := ⟨["EventCode"], [[("EventCode", Val.str "4625")]]⟩

/-- The catalog-scoring example subset: identifier 4625 five times and
4688 three times. -/
def df3 : DFrame :=
  ⟨["EventCode"],
   List.replicate 5 [("EventCode", Val.str "4625")] ++
   List.replicate 3 [("EventCode", Val.str "4688")]⟩

/-- The fallback example subset: identifier 9999 seven times and 8888
twice, neither in the catalog. -/
def df4 : DFrame :=
  ⟨["EventCode"],
   List.replicate 7 [("EventCode", Val.str "9999")] ++
   List.replicate 2 [("EventCode", Val.str "8888")]⟩

/-- A record set whose only typing signal is a DNS-indicative column. -/
def df6 : DFrame := ⟨["query"], [[("query", Val.str "abc.example.com")]]⟩

/-- A Windows subset whose identifier values are numbers, not strings. -/
def df9 : DFrame := ⟨["EventCode"], [[("EventCode", Val.intv 4625)]]⟩

/-- A Windows subset with string identifiers and one extra field. -/
def df9w : DFrame :=
  ⟨["EventCode", "host"], [[("EventCode", Val.str "4625"), ("host", Val.str "h1")]]⟩

/-- A frame with a textual timestamp column and one extra field. -/
def df8 : DFrame :=
  ⟨["_time", "host"], [[("_time", Val.str "2016-08-10T12:00:00"), ("host", Val.str "h1")]]⟩

/-- A fixed timestamp parser used to instantiate the normalizer. -/
def pZero : String → Option Int := fun _ => some 0

/-- A pattern matcher that never finds a domain-shaped substring, so the
raw field text is used verbatim. -/
def rexNone : String → Option String := fun _ => none

/-- A DNS subset holding the deeply nested query-name example. -/
def dfC5 : DFrame := ⟨["query"], [[("query", Val.str "a.b.c.d.e.f.example.com")]]⟩

theorem maskFilter_sublist {α : Type} : ∀ (l : List α) (m : List Bool), (maskFilter l m).Sublist l := by
  intro l
  induction l with
  | nil => intro m; exact List.nil_sublist _
  | cons a l ih =>
    intro m
    cases m with
    | nil => exact List.nil_sublist _
    | cons b bm =>
      cases b with
      | false => simpa [maskFilter] using (ih bm).cons a
      | true => simpa [maskFilter] using (ih bm).cons₂ a

theorem dfSelect_ok_rows {df w : DFrame} {s : Sel} (h : dfSelect df s = .ok w) :
    w.rows.Sublist df.rows := by
  cases s with
  | mask m =>
    simp only [dfSelect, Except.ok.injEq] at h
    rw [← h]
    exact maskFilter_sublist _ _
  | scalar b => simp [dfSelect] at h

theorem getVal_map_set (c : String) (v : Val) :
    ∀ r : Record, hasKey c r = true →
      getVal c (r.map (fun p => if p.1 = c then (c, v) else p)) = v := by
  intro r
  induction r with
  | nil => intro h; simp [hasKey] at h
  | cons p r ih =>
    intro h
    obtain ⟨k, w⟩ := p
    rw [List.map_cons]
    by_cases hp : k = c
    · rw [show (if (k, w).1 = c then (c, v) else (k, w)) = (c, v) from if_pos hp]
      simp [getVal]
    · rw [show (if (k, w).1 = c then (c, v) else (k, w)) = (k, w) from if_neg hp]
      have h2 : hasKey c r = true := by
        simp only [hasKey, List.any_cons, Bool.or_eq_true, decide_eq_true_eq] at h
        rcases h with h | h
        · exact absurd h hp
        · simpa [hasKey] using h
      rw [show getVal c ((k, w) :: r.map (fun p => if p.1 = c then (c, v) else p)) =
            getVal c (r.map (fun p => if p.1 = c then (c, v) else p)) by
          rw [getVal]; exact if_neg hp]
      exact ih h2

theorem getVal_append_set (c : String) (v : Val) :
    ∀ r : Record, hasKey c r = false → getVal c (r ++ [(c, v)]) = v := by
  intro r
  induction r with
  | nil => intro _; simp [getVal]
  | cons p r ih =>
    intro h
    have hp : ¬p.1 = c := by
      intro hp
      simp [hasKey, hp] at h
    have h2 : hasKey c r = false := by
      simp only [hasKey, List.any_cons, Bool.or_eq_false_iff] at h
      simpa [hasKey] using h.2
    simpa [getVal, hp] using ih h2

theorem getVal_setVal_same (c : String) (v : Val) (r : Record) :
    getVal c (setVal c v r) = v := by
  unfold setVal
  by_cases h : hasKey c r = true
  · simpa [h] using getVal_map_set c v r h
  · simp only [Bool.not_eq_true] at h
    simpa [h] using getVal_append_set c v r h

theorem getVal_map_ne {cc c : String} (hne : cc ≠ c) (v : Val) :
    ∀ r : Record, getVal cc (r.map (fun p => if p.1 = c then (c, v) else p)) = getVal cc r := by
  intro r
  induction r with
  | nil => simp
  | cons p r ih =>
    obtain ⟨k, w⟩ := p
    rw [List.map_cons]
    have hcc : ¬c = cc := fun he => hne he.symm
    by_cases hp : k = c
    · rw [show (if (k, w).1 = c then (c, v) else (k, w)) = (c, v) from if_pos hp]
      rw [getVal, if_neg hcc, getVal, if_neg (fun hk => hcc (hp.symm.trans hk))]
      exact ih
    · rw [show (if (k, w).1 = c then (c, v) else (k, w)) = (k, w) from if_neg hp]
      by_cases hpc : k = cc
      · rw [getVal, if_pos hpc, getVal, if_pos hpc]
      · rw [getVal, if_neg hpc, getVal, if_neg hpc]
        exact ih

theorem getVal_append_ne {cc c : String} (hne : cc ≠ c) (v : Val) :
    ∀ r : Record, getVal cc (r ++ [(c, v)]) = getVal cc r := by
  intro r
  induction r with
  | nil =>
    have hcc : ¬c = cc := fun he => hne he.symm
    simp [getVal, hcc]
  | cons p r ih =>
    by_cases hpc : p.1 = cc
    · simp [getVal, hpc]
    · simp [getVal, hpc, ih]

theorem getVal_setVal_ne {cc c : String} (hne : cc ≠ c) (v : Val) (r : Record) :
    getVal cc (setVal c v r) = getVal cc r := by
  unfold setVal
  by_cases h : hasKey c r = true
  · simpa [h] using getVal_map_ne hne v r
  · simp only [Bool.not_eq_true] at h
    simpa [h] using getVal_append_ne hne v r

theorem map_set_noKey (c : String) (v : Val) :
    ∀ r : Record, hasKey c r = false →
      r.map (fun p => if p.1 = c then (c, v) else p) = r := by
  intro r
  induction r with
  | nil => intro _; rfl
  | cons p r ih =>
    intro h
    have hp : ¬p.1 = c := by
      intro hp
      simp [hasKey, hp] at h
    have h2 : hasKey c r = false := by
      simp only [hasKey, List.any_cons, Bool.or_eq_false_iff] at h
      simpa [hasKey] using h.2
    simp [hp, ih h2]

theorem hasKey_map_set (c : String) (v : Val) (r : Record) (h : hasKey c r = true) :
    hasKey c (r.map (fun p => if p.1 = c then (c, v) else p)) = true := by
  simp only [hasKey, List.any_eq_true, decide_eq_true_eq] at h ⊢
  obtain ⟨p, hm, hp⟩ := h
  refine ⟨(c, v), ?_, rfl⟩
  simpa [hp] using List.mem_map_of_mem (fun p => if p.1 = c then (c, v) else p) hm

theorem setVal_setVal (c : String) (v w : Val) (r : Record) :
    setVal c w (setVal c v r) = setVal c w r := by
  by_cases h : hasKey c r = true
  · have h2 := hasKey_map_set c v r h
    unfold setVal
    simp only [h, if_true, h2]
    rw [List.map_map]
    apply List.map_congr_left
    intro p _
    by_cases hp : p.1 = c <;> simp [Function.comp, hp]
  · simp only [Bool.not_eq_true] at h
    have h2 : hasKey c (r ++ [(c, v)]) = true := by
      simp [hasKey, List.any_append]
    unfold setVal
    simp only [h, Bool.false_eq_true, if_false, h2, if_true]
    rw [List.map_append, map_set_noKey c w r h]
    simp

theorem setColF_cols {df : DFrame} {c : String} (h : df.cols.contains c = true)
    (f : Record → Val) : (setColF df c f).cols = df.cols := by
  have hm : c ∈ df.cols := by simpa using h
  simp [setColF, hm]

theorem setColF_map_same (df : DFrame) (c : String) (f : Record → Val) :
    (setColF df c f).rows.map (getVal c) = df.rows.map f := by
  simp only [setColF, List.map_map]
  apply List.map_congr_left
  intro r _
  exact getVal_setVal_same c (f r) r

theorem setColF_map_ne {c cc : String} (hne : cc ≠ c) (df : DFrame) (f : Record → Val) :
    (setColF df c f).rows.map (getVal cc) = df.rows.map (getVal cc) := by
  simp only [setColF, List.map_map]
  apply List.map_congr_left
  intro r _
  exact getVal_setVal_ne hne (f r) r

theorem vals_after_set (df : DFrame) (ec : String) :
    (setColF df ec (fun r => .str (asStr (getVal ec r)))).rows.map
        (fun r => asStr (getVal ec r)) =
      df.rows.map (fun r => asStr (getVal ec r)) := by
  simp only [setColF, List.map_map]
  apply List.map_congr_left
  intro r _
  simp only [Function.comp]
  rw [getVal_setVal_same]
  rfl

theorem toDatetime_idem (p : String → Option Int) (v : Val) :
    toDatetime p (toDatetime p v) = toDatetime p v := by
  cases v with
  | str s =>
    cases h : p s with
    | none => simp [toDatetime, h]
    | some t => simp [toDatetime, h]
  | intv n => rfl
  | time t => rfl
  | na => rfl

theorem value_counts_count {l : List String} {k : String} {n : Nat}
    (h : (k, n) ∈ value_counts l) : n = l.count k := by
  unfold value_counts at h
  rw [List.mem_insertionSort, List.mem_map] at h
  obtain ⟨s, _, he⟩ := h
  cases he
  rfl

theorem value_counts_sorted (l : List String) : List.Sorted cntGe (value_counts l) :=
  List.sorted_insertionSort cntGe _

theorem value_counts_mem_key {l : List String} {v : String} (h : v ∈ l) :
    (v, l.count v) ∈ value_counts l := by
  unfold value_counts
  rw [List.mem_insertionSort]
  exact List.mem_map_of_mem _ (List.mem_dedup.mpr h)

theorem filter_lookup_none {l : List String} (h : ∀ v ∈ l, lookupId v = none) :
    l.filter (fun v => (lookupId v).isSome) = [] := by
  induction l with
  | nil => rfl
  | cons a l ih =>
    rw [List.filter_cons]
    have ha : lookupId a = none := h a (List.mem_cons_self a l)
    simp only [ha, Option.isSome_none, Bool.false_eq_true, if_false]
    exact ih (fun v hv => h v (List.mem_cons_of_mem a hv))

theorem sumFor_cons (p : String × String) (r : Row) (l : List Row) :
    sumFor p (r :: l) = (if pairOf r = p then r.count else 0) + sumFor p l := by
  unfold sumFor
  rw [List.filter_cons]
  by_cases h : pairOf r = p <;> simp [h]

theorem sumFor_perm {l1 l2 : List Row} (h : l1.Perm l2) (p : String × String) :
    sumFor p l1 = sumFor p l2 := by
  unfold sumFor
  exact ((h.filter _).map _).sum_eq

theorem sumFor_eq_zero {rows : List Row} {p : String × String}
    (h : p ∉ rows.map pairOf) : sumFor p rows = 0 := by
  induction rows with
  | nil => rfl
  | cons r l ih =>
    rw [sumFor_cons]
    rw [List.map_cons, List.mem_cons] at h
    push_neg at h
    rw [if_neg (fun he => h.1 he.symm), ih h.2]

theorem sumFor_mkRows (rows : List Row) (p : String × String) :
    ∀ keys : List (String × String), keys.Nodup →
      sumFor p (keys.map (fun q => (⟨q.1, q.2, sumFor q rows⟩ : Row))) =
        if p ∈ keys then sumFor p rows else 0 := by
  intro keys
  induction keys with
  | nil => intro _; simp [sumFor]
  | cons q ks ih =>
    intro hnd
    rw [List.map_cons, sumFor_cons]
    have hpair : pairOf (⟨q.1, q.2, sumFor q rows⟩ : Row) = q := rfl
    rw [hpair, ih (List.nodup_cons.mp hnd).2]
    by_cases hq : q = p
    · subst hq
      have hnotin : q ∉ ks := (List.nodup_cons.mp hnd).1
      simp [hnotin]
    · have hpq : p ∈ q :: ks ↔ p ∈ ks := by
        rw [List.mem_cons]
        exact or_iff_right (fun he => hq he.symm)
      rw [if_neg hq]
      rw [Nat.zero_add]
      exact (if_congr hpq rfl rfl).symm

theorem aggregate_perm (rows : List Row) :
    (aggregate rows).Perm
      (((rows.map pairOf).dedup).map (fun p => (⟨p.1, p.2, sumFor p rows⟩ : Row))) := by
  unfold aggregate
  exact (List.perm_insertionSort _ _).trans ((List.perm_insertionSort _ _).map _)

theorem split_logs_ok_sublists {df w d : DFrame}
    (h : split_logs df = .ok (w, d)) : w.rows.Sublist df.rows ∧ d.rows.Sublist df.rows := by
  unfold split_logs at h
  cases h1 : dfSelect df (winSel df) with
  | error e => rw [h1] at h; exact Except.noConfusion h
  | ok wdf =>
    rw [h1] at h
    cases h2 : dfSelect df (dnsSel df) with
    | error e => rw [h2] at h; exact Except.noConfusion h
    | ok ddf =>
      rw [h2] at h
      simp only [Except.ok.injEq, Prod.mk.injEq] at h
      obtain ⟨hw, hd⟩ := h
      subst hw
      subst hd
      exact ⟨dfSelect_ok_rows h1, dfSelect_ok_rows h2⟩


/-- Claim C1: on an empty RecordSet or empty subset every component is to
return an empty, well-typed zero-row output and never raise.  The Field
Normalizer, both scorers and the Aggregator do exactly that, but the
Source Classifier raises a KeyError on the empty record set, because the
scalar boolean False that `is_win` was initialized with is passed to the
bracket indexer and looked up as a column label. -/
theorem C1_empty_input_components :
    split_logs dfEmpty = .error "KeyError: false" ∧
    (∀ p, normalize_time p dfEmpty = dfEmpty) ∧
    suspicious_wineventlog dfEmpty = (dfEmpty, []) ∧
    (∀ rex, suspicious_dns rex dfEmpty = []) ∧
    aggregate [] = [] ∧
    suspicious_wineventlog dfWinNoRows = (dfWinNoRows, []) ∧
    (∀ rex, suspicious_dns rex dfDnsNoRows = []) ∧
    (∀ p, normalize_time p dfTimeNoRows = dfTimeNoRows) :=
  ⟨rfl, fun _ => rfl, rfl, fun _ => rfl, rfl, rfl, fun _ => rfl, fun _ => rfl⟩

/-- Claim C2: the Source Classifier is claimed never to raise, and its two
outputs are order-preserving subsequences of the input.  The subsequence
half holds on every run that returns, but the classifier does raise: on any
record set without a source and without a sourcetype column the scalar
False reaches the bracket indexer and a KeyError escapes. -/
theorem C2_classifier_subsequences :
    split_logs df2bad = .error "KeyError: false" ∧
    (∀ df : DFrame,
      match split_logs df with
      | .ok wd => wd.1.rows.Sublist df.rows ∧ wd.2.rows.Sublist df.rows
      | .error _ => True) := by
  constructor
  · rfl
  · intro df
    cases h : split_logs df with
    | error e => trivial
    | ok wd =>
      obtain ⟨w, d⟩ := wd
      exact split_logs_ok_sublists h

/-- Claim C3: on a subset whose identifier column holds 4625 five times
and 4688 three times, the Windows Rule Scorer returns exactly the two
catalog-labelled rows, sorted descending by count. -/
theorem C3_win_catalog_example :
    suspicious_wineventlog df3 =
      (df3, [⟨"WinEventLog", "Failed logon (4625)", 5⟩,
             ⟨"WinEventLog", "Process created (4688)", 3⟩]) := by decide

/-- Claim C5: a DNS record is flagged as a weird subdomain exactly when
its query name length is at least 40, or its dot count at least 5, or its
digit count at least 10; the example query name has dot count 7, is
flagged, and its derived domain is example.com. -/
theorem C5_weird_flagging :
    (∀ (q : String) (l : List String),
      q ∈ suspicious_q l ↔ q ∈ l ∧ (q.length ≥ 40 ∨ dotCount q ≥ 5 ∨ digitCount q ≥ 10)) ∧
    dotCount "a.b.c.d.e.f.example.com" = 7 ∧
    weird "a.b.c.d.e.f.example.com" = true ∧
    extract_domain (Val.str "a.b.c.d.e.f.example.com") = "example.com" ∧
    suspicious_dns rexNone dfC5 =
      [⟨"DNS (rare domains)", "example.com", 1⟩,
       ⟨"DNS (weird subdomains)", "a.b.c.d.e.f.example.com", 1⟩] := by
  refine ⟨?_, by decide, by decide, by decide, by decide⟩
  intro q l
  simp only [suspicious_q, List.mem_filter, weird, Bool.or_eq_true, decide_eq_true_eq,
    or_assoc]

/-- Claim C6: with neither source nor sourcetype present, the DNS
detection is claimed to classify the whole set by one set-intersection
boolean.  The detector does compute that scalar boolean, but using it as
an indexer raises a KeyError, and the classifier has in fact already
raised on the Windows side before reaching it. -/
theorem C6_dns_last_resort_raises :
    dnsSel df6 = .scalar true ∧
    dfSelect df6 (dnsSel df6) = .error "KeyError: true" ∧
    split_logs df6 = .error "KeyError: false" :=
  ⟨rfl, rfl, rfl⟩

/-- Claim C7: the Aggregator groups rows by the pair of category and key,
sums counts inside each group, and sorts descending by summed count; on
the example rows it returns exactly the two merged rows.  Stated as the
example equality plus, for every row list: the output is sorted
descending, carries the same total count for every grouping key as the
input, and mentions each grouping key at most once. -/
theorem C7_aggregate_group_sum_sort :
    (aggregate [⟨"WinEventLog", "X", 3⟩, ⟨"DNS (rare domains)", "Y", 2⟩,
                ⟨"WinEventLog", "X", 1⟩] =
      [⟨"WinEventLog", "X", 4⟩, ⟨"DNS (rare domains)", "Y", 2⟩]) ∧
    (∀ rows : List Row, List.Sorted rowGe (aggregate rows)) ∧
    (∀ (rows : List Row) (p : String × String), sumFor p (aggregate rows) = sumFor p rows) ∧
    (∀ rows : List Row, ((aggregate rows).map pairOf).Nodup) := by
  refine ⟨by decide, ?_, ?_, ?_⟩
  · intro rows
    exact List.sorted_insertionSort rowGe _
  · intro rows p
    rw [sumFor_perm (aggregate_perm rows) p]
    rw [sumFor_mkRows rows p _ (List.nodup_dedup _)]
    by_cases hp : p ∈ (rows.map pairOf).dedup
    · rw [if_pos hp]
    · rw [if_neg hp]
      exact (sumFor_eq_zero (fun hc => hp (List.mem_dedup.mpr hc))).symm
  · intro rows
    have hperm : ((aggregate rows).map pairOf).Perm ((rows.map pairOf).dedup) := by
      have h1 := (aggregate_perm rows).map pairOf
      rw [List.map_map] at h1
      have h2 : (pairOf ∘ fun p : String × String => (⟨p.1, p.2, sumFor p rows⟩ : Row)) = id :=
        rfl
      rw [h2, List.map_id] at h1
      exact h1
    exact (hperm.nodup_iff).mpr (List.nodup_dedup _)

/-- Claim C10: extract_domain is total with a silent edge case: values
that are not strings and the empty string give the empty string, and a
non-empty string is stripped of leading and trailing dots and lowercased
before splitting, so the mixed-case dotted examples all land on their
registrable domain. -/
theorem C10_extract_domain_edge_cases :
    extract_domain Val.na = "" ∧
    (∀ n, extract_domain (Val.intv n) = "") ∧
    (∀ t, extract_domain (Val.time t) = "") ∧
    extract_domain (Val.str "") = "" ∧
    extract_domain (Val.str "Example.com.") = "example.com" ∧
    extract_domain (Val.str "..A.b.Example.COM..") = "example.com" ∧
    extract_domain (Val.str "ExAmple.Com") = "example.com" ∧
    extract_domain (Val.str "com") = "com" ∧
    extract_domain (Val.str "...") = "" :=
  ⟨rfl, fun _ => rfl, fun _ => rfl, rfl, by decide, by decide, by decide, by decide, by decide⟩

theorem DFrame_eq {a b : DFrame} (h1 : a.cols = b.cols) (h2 : a.rows = b.rows) : a = b := by
  cases a
  cases b
  simp only at h1 h2
  rw [h1, h2]

theorem contains_setColF (df : DFrame) (c : String) (f : Record → Val) :
    (setColF df c f).cols.contains c = true := by
  simp only [setColF]
  by_cases h : df.cols.contains c = true
  · rw [if_pos h]
    exact h
  · rw [if_neg h]
    simp

theorem setColF_idem (df : DFrame) (c : String) (g : Val → Val)
    (hg : ∀ v, g (g v) = g v) :
    setColF (setColF df c (fun r => g (getVal c r))) c (fun r => g (getVal c r)) =
      setColF df c (fun r => g (getVal c r)) := by
  apply DFrame_eq
  · exact setColF_cols (contains_setColF df c _) _
  · show ((setColF df c (fun r => g (getVal c r))).rows.map
        (fun r => setVal c (g (getVal c r)) r)) = _
    simp only [setColF, List.map_map]
    apply List.map_congr_left
    intro r _
    simp only [Function.comp]
    rw [getVal_setVal_same, setVal_setVal, hg]

theorem normalize_time_cols (p : String → Option Int) (df : DFrame) :
    (normalize_time p df).cols = df.cols := by
  unfold normalize_time
  by_cases h : hasCol df "_time" = true
  · rw [if_pos h]
    exact setColF_cols h _
  · rw [if_neg h]

theorem normalize_time_idem (p : String → Option Int) (df : DFrame) :
    normalize_time p (normalize_time p df) = normalize_time p df := by
  by_cases h : hasCol df "_time" = true
  · have e1 : normalize_time p df =
        setColF df "_time" (fun r => toDatetime p (getVal "_time" r)) := by
      unfold normalize_time
      rw [if_pos h]
    have h2 : hasCol (setColF df "_time" (fun r => toDatetime p (getVal "_time" r)))
        "_time" = true := contains_setColF df "_time" _
    calc normalize_time p (normalize_time p df)
        = normalize_time p (setColF df "_time" (fun r => toDatetime p (getVal "_time" r))) := by
          rw [e1]
      _ = setColF (setColF df "_time" (fun r => toDatetime p (getVal "_time" r)))
            "_time" (fun r => toDatetime p (getVal "_time" r)) := by
          unfold normalize_time
          rw [if_pos h2]
      _ = setColF df "_time" (fun r => toDatetime p (getVal "_time" r)) :=
          setColF_idem df "_time" (toDatetime p) (toDatetime_idem p)
      _ = normalize_time p df := e1.symm
  · have e1 : normalize_time p df = df := by
      unfold normalize_time
      rw [if_neg h]
    rw [e1]
    exact e1

/-- Claim C8: the Field Normalizer is idempotent and touches only the
timestamp field: renormalizing an already-normalized RecordSet is the
identity, the column list is unchanged, and every column other than
the timestamp column reads the same values afterwards. -/
theorem C8_normalize_time_idempotent :
    (∀ (p : String → Option Int) (df : DFrame),
      normalize_time p (normalize_time p df) = normalize_time p df) ∧
    (∀ (p : String → Option Int) (df : DFrame), (normalize_time p df).cols = df.cols) ∧
    (∀ (p : String → Option Int) (df : DFrame) (c : String), c ≠ "_time" →
      (normalize_time p df).rows.map (getVal c) = df.rows.map (getVal c)) := by
  refine ⟨normalize_time_idem, normalize_time_cols, ?_⟩
  intro p df c hne
  unfold normalize_time
  by_cases h : hasCol df "_time" = true
  · rw [if_pos h]
    exact setColF_map_ne hne df _
  · rw [if_neg h]

/-- Witness for claim C8 at a concrete parser and frame. -/
theorem C8_normalize_time_idempotent_witness :
    normalize_time pZero (normalize_time pZero df8) = normalize_time pZero df8 ∧
    (normalize_time pZero df8).cols = df8.cols ∧
    (normalize_time pZero df8).rows.map (getVal "host") = df8.rows.map (getVal "host") :=
  ⟨C8_normalize_time_idempotent.1 pZero df8,
   C8_normalize_time_idempotent.2.1 pZero df8,
   C8_normalize_time_idempotent.2.2 pZero df8 "host" (by decide)⟩

theorem suspicious_wineventlog_fst_none {df : DFrame}
    (h : findCol df event_cols = none) : (suspicious_wineventlog df).1 = df := by
  unfold suspicious_wineventlog
  rw [h]

theorem suspicious_wineventlog_fst_some {df : DFrame} {ec : String}
    (h : findCol df event_cols = some ec) :
    (suspicious_wineventlog df).1 =
      if df.rows.isEmpty then df
      else setColF df ec (fun r => .str (asStr (getVal ec r))) := by
  simp only [suspicious_wineventlog, h]
  by_cases he : df.rows.isEmpty = true
  · simp only [if_pos he]
  · simp only [if_neg he]
    split <;> rfl

theorem findCol_contains {df : DFrame} {cands : List String} {ec : String}
    (h : findCol df cands = some ec) : df.cols.contains ec = true := by
  unfold findCol at h
  exact List.find?_some h

/-- Counterexample for claim C9: the Windows Rule Scorer does not leave
its input unchanged when the identifier values are not strings. -/
theorem C9_mutation_counterexample : (suspicious_wineventlog df9).1 ≠ df9 := by decide

/-- Claim C9 as amended: the Windows Rule Scorer leaves its input
unchanged when no identifier column resolves, and otherwise mutates
exactly the resolved identifier column in place, replacing each of its
values by its string coercion; every other column is unchanged. -/
theorem C9_scorer_mutation :
    (∀ df : DFrame, findCol df event_cols = none → (suspicious_wineventlog df).1 = df) ∧
    (∀ (df : DFrame) (ec : String), findCol df event_cols = some ec →
      (suspicious_wineventlog df).1.cols = df.cols ∧
      (∀ c, c ≠ ec →
        (suspicious_wineventlog df).1.rows.map (getVal c) = df.rows.map (getVal c)) ∧
      (suspicious_wineventlog df).1.rows.map (getVal ec) =
        df.rows.map (fun r => Val.str (asStr (getVal ec r)))) := by
  refine ⟨fun df h => suspicious_wineventlog_fst_none h, ?_⟩
  intro df ec h
  have hfst := suspicious_wineventlog_fst_some h
  have hcont : df.cols.contains ec = true := findCol_contains h
  by_cases he : df.rows.isEmpty = true
  · rw [hfst, if_pos he]
    have hrows : df.rows = [] := List.isEmpty_iff.mp he
    refine ⟨rfl, fun c _ => rfl, ?_⟩
    rw [hrows]
    rfl
  · rw [hfst, if_neg he]
    exact ⟨setColF_cols hcont _, fun c hc => setColF_map_ne hc df _,
      setColF_map_same df ec _⟩

/-- Witness for the amended claim C9 at concrete frames. -/
theorem C9_scorer_mutation_witness :
    (suspicious_wineventlog df9w).1.cols = df9w.cols ∧
    (suspicious_wineventlog df9w).1.rows.map (getVal "host") =
      df9w.rows.map (getVal "host") ∧
    (suspicious_wineventlog df9w).1.rows.map (getVal "EventCode") =
      df9w.rows.map (fun r => Val.str (asStr (getVal "EventCode" r))) ∧
    (suspicious_wineventlog dfEmpty).1 = dfEmpty := by
  have h := C9_scorer_mutation.2 df9w "EventCode" (by decide)
  exact ⟨h.1, h.2.1 "host" (by decide), h.2.2, C9_scorer_mutation.1 dfEmpty rfl⟩

theorem win_fallback_eq {df : DFrame} {ec : String}
    (hc : findCol df event_cols = some ec)
    (hnone : ∀ v ∈ winVals df ec, lookupId v = none) :
    (suspicious_wineventlog df).2 =
      ((value_counts (winVals df ec)).take 10).map
        (fun p => (⟨"WinEventLog (top by frequency)", p.1, p.2⟩ : Row)) := by
  by_cases he : df.rows.isEmpty = true
  · have hrows : df.rows = [] := List.isEmpty_iff.mp he
    have h1 : (suspicious_wineventlog df).2 = [] := by
      simp only [suspicious_wineventlog, hc, if_pos he]
    rw [h1]
    simp [winVals, hrows, value_counts]
  · simp only [suspicious_wineventlog, hc, if_neg he]
    have hflag : ((setColF df ec (fun r => Val.str (asStr (getVal ec r)))).rows.map
          (fun r => asStr (getVal ec r))).filter (fun v => (lookupId v).isSome) = [] := by
      rw [vals_after_set]
      exact filter_lookup_none (fun v hv => hnone v hv)
    rw [hflag]
    simp only [List.isEmpty_nil, if_true]
    rw [vals_after_set]
    rfl

/-- Claim C4: on a subset with an identifier column but no catalog hits,
the Windows Rule Scorer reports the ten most frequent raw identifier
values: on the example subset it returns exactly the 9999-before-8888
rows, and in general on the fallback path every output row carries the
top-by-frequency category and the true occurrence count of its raw
identifier, the output is sorted descending by count, holds at most ten
rows, and, whenever it holds fewer than ten, covers every identifier
value of the subset. -/
theorem C4_win_fallback :
    ((suspicious_wineventlog df4).2 =
      [⟨"WinEventLog (top by frequency)", "9999", 7⟩,
       ⟨"WinEventLog (top by frequency)", "8888", 2⟩]) ∧
    (∀ (df : DFrame) (ec : String), findCol df event_cols = some ec →
      (∀ v ∈ winVals df ec, lookupId v = none) →
      ((∀ row ∈ (suspicious_wineventlog df).2,
          row.rtype = "WinEventLog (top by frequency)" ∧
          row.count = (winVals df ec).count row.key) ∧
       List.Sorted rowGe (suspicious_wineventlog df).2 ∧
       (suspicious_wineventlog df).2.length ≤ 10 ∧
       ((suspicious_wineventlog df).2.length < 10 →
         ∀ v ∈ winVals df ec, v ∈ (suspicious_wineventlog df).2.map Row.key))) := by
  refine ⟨by decide, ?_⟩
  intro df ec hc hnone
  rw [win_fallback_eq hc hnone]
  refine ⟨?_, ?_, ?_, ?_⟩
  · intro row hrow
    rw [List.mem_map] at hrow
    obtain ⟨p, hp, he⟩ := hrow
    have hpvc : p ∈ value_counts (winVals df ec) :=
      (List.take_sublist 10 _).subset hp
    obtain ⟨k, n⟩ := p
    subst he
    exact ⟨rfl, value_counts_count hpvc⟩
  · apply List.pairwise_map.mpr
    have hs := List.Pairwise.sublist (List.take_sublist 10 _)
      (value_counts_sorted (winVals df ec))
    exact hs.imp (fun {a b} h => h)
  · rw [List.length_map, List.length_take]
    exact inf_le_left
  · intro hlen v hv
    rw [List.length_map, List.length_take] at hlen
    have hvclen : (value_counts (winVals df ec)).length < 10 := by
      by_cases h10 : (10 : Nat) ≤ (value_counts (winVals df ec)).length
      · rw [min_eq_left h10] at hlen
        exact absurd hlen (lt_irrefl 10)
      · exact Nat.lt_of_not_le h10
    rw [List.take_of_length_le (Nat.le_of_lt hvclen), List.map_map, List.mem_map]
    exact ⟨(v, (winVals df ec).count v), value_counts_mem_key hv, rfl⟩

/-- Witness for claim C4: the general fallback properties instantiated on
the example subset. -/
theorem C4_win_fallback_witness :
    List.Sorted rowGe (suspicious_wineventlog df4).2 ∧
    (suspicious_wineventlog df4).2.length ≤ 10 := by
  have h := C4_win_fallback.2 df4 "EventCode" (by decide) (by decide)
  exact ⟨h.2.1, h.2.2.1⟩

end Analyz
